import Mathlib

/-!
Verification of the StatesOfTheWorld country scraper (`app.py`).

The scraper's pure text-processing core is embedded shallowly: Python strings
become `String`/`List Char`, Python `None` becomes `Option`, Python floats are
modelled as exact rationals (`ℚ`), and the one place where row processing can
raise an exception (`a.get_text()[0]` on an empty link text) is modelled with
`Except Unit`.  Rational values are always built through `mkRat`/`Rat.divInt`
so that every definition evaluates inside the kernel.
-/

namespace States

/-- Python's `\s` / `str.strip` whitespace class, restricted to the ASCII
whitespace characters (the inputs of interest are ASCII). -/
def pyIsSpace (ch : Char) : Bool :=
  ch = ' ' || ch = '\t' || ch = '\n' || ch = '\r' || ch = '\x0b' || ch = '\x0c'

/-- Scan for the nearest closing character `c`; Python's `.` does not match a
line break, so the lazy span `\[.*?\]` fails as soon as a `'\n'` is hit.
Returns the characters after the consumed closer. -/
def findClose (c : Char) : List Char → Option (List Char)
  | [] => none
  | x :: xs => if x = c then some xs else if x = '\n' then none else findClose c xs

/-- Fuelled worker for `removeSpans` (fuel keeps the recursion structural, so
that everything computes by `decide`/`rfl`; `removeSpans` supplies enough). -/
def rmF (o c : Char) : Nat → List Char → List Char
  | 0, l => l
  | _ + 1, [] => []
  | n + 1, x :: xs =>
    if x = o then
      match findClose c xs with
      | some rest => rmF o c n rest
      | none => x :: rmF o c n xs
    else x :: rmF o c n xs

/-- `re.sub(r'\[.*?\]', '', text)` (resp. the parenthesis variant): repeatedly
delete, left to right, the span from an opener `o` to the nearest closer `c`
not separated from it by a line break. -/
def removeSpans (o c : Char) (l : List Char) : List Char := rmF o c l.length l

/-- `text.replace('\n', ' ')`, per character. -/
def nlToSp (ch : Char) : Char := if ch = '\n' then ' ' else ch

/-- Whitespace characters viewed as a single space (first half of
`re.sub(r'\s+', ' ', text)`). -/
def wsToSp (ch : Char) : Char := if pyIsSpace ch then ' ' else ch

/-- Collapse runs of spaces to a single space (second half of
`re.sub(r'\s+', ' ', text)` after `wsToSp` has renamed every whitespace
character to `' '`). -/
def squeeze : List Char → List Char
  | [] => []
  | [c] => [c]
  | a :: b :: rest =>
    if a = ' ' && b = ' ' then squeeze (b :: rest) else a :: squeeze (b :: rest)

/-- Remove trailing whitespace (the right half of `str.strip()`). -/
def dropTrailWS (l : List Char) : List Char :=
  (l.reverse.dropWhile pyIsSpace).reverse

/-- `str.strip()`. -/
def pyStrip (l : List Char) : List Char := dropTrailWS (l.dropWhile pyIsSpace)

/-- The body of `CountryScraper.clean_text` on a non-empty string: remove
`[...]` citation spans, then `(...)` spans, replace line breaks by spaces,
collapse whitespace runs, and strip. -/
def cleanChars (l : List Char) : List Char :=
  pyStrip (squeeze (((removeSpans '(' ')' (removeSpans '[' ']' l)).map nlToSp).map wsToSp))

/-- `CountryScraper.clean_text`: `None` for falsy (empty) input, otherwise the
cleaned string (which may itself be empty). -/
def clean_text (s : String) : Option String :=
  if s = "" then none else some (String.mk (cleanChars s.data))

/-- `clean_text` lifted to `string|null` arguments, as the spec's `normalize`
contract states it (`clean_text(None)` is `None` since `None` is falsy). -/
def normalize : Option String → Option String
  | none => none
  | some s => clean_text s

/-! ### Substring test (Python's `in` on strings) -/

/-- `needle` is a prefix of `hay` (character lists). -/
def startsL : List Char → List Char → Bool
  | [], _ => true
  | _ :: _, [] => false
  | a :: as, b :: bs => a = b && startsL as bs

/-- Python's `needle in hay` substring test. -/
def substrL (needle : List Char) : List Char → Bool
  | [] => startsL needle []
  | b :: bs => startsL needle (b :: bs) || substrL needle bs

/-- Substring test on strings. -/
def strIn (needle hay : String) : Bool := substrL needle.data hay.data

/-- Python `str.lower()`, per character (ASCII). -/
def pyLower (s : String) : List Char := s.data.map Char.toLower

/-! ### `CountryScraper.parse_number` and `parse_float` -/

/-- Value of a digit list, most significant first (`"120" ↦ 120`). -/
def digitsToNat (l : List Char) : Nat :=
  l.foldl (fun acc c => 10 * acc + (c.toNat - '0'.toNat)) 0

/-- Value of the regex match `\d+(\.\d+)?` with integer digits `ds` and
fractional digits `fs`, as an exact rational. -/
def numeralVal (ds fs : List Char) : ℚ :=
  mkRat (digitsToNat ds * 10 ^ fs.length + digitsToNat fs) (10 ^ fs.length)

/-- `re.search(r'\d+(\.\d+)?', l)`: the leftmost maximal numeral, or `none`
when the text holds no digit. -/
def extractNumeral : List Char → Option ℚ
  | [] => none
  | c :: rest =>
    if c.isDigit then
      let ds := (c :: rest).takeWhile Char.isDigit
      match (c :: rest).dropWhile Char.isDigit with
      | '.' :: r2 =>
        let fs := r2.takeWhile Char.isDigit
        if fs = [] then some (numeralVal ds []) else some (numeralVal ds fs)
      | _ => some (numeralVal ds [])
    else extractNumeral rest

/-- Magnitude multiplier of `parse_number`: an `if/elif` chain over the
lower-cased *raw* text — billion first, then million, then trillion. -/
def magMultiplier (low : List Char) : Int :=
  if substrL "billion".data low then 1000000000
  else if substrL "million".data low then 1000000
  else if substrL "trillion".data low then 1000000000000
  else 1

/-- Python `int(q)` for a float/rational: truncation toward zero. -/
def pyInt (q : ℚ) : Int := q.num.tdiv q.den

/-- Multiply a rational by an integer without Lean's (irreducible) `Rat.mul`,
so that it evaluates by `decide`; `qscale k q = k * q` (see `qscale_eq`). -/
def qscale (k : Int) (q : ℚ) : ℚ := Rat.divInt (k * q.num) q.den

/-- `CountryScraper.parse_number`: detect the magnitude word on the raw
lower-cased text, clean the text, drop the thousands separators, take the
first numeral, scale, truncate to an integer. -/
def parse_number (t : String) : Option Int :=
  if t = "" then none
  else
    let mult := magMultiplier (pyLower t)
    let cleanStr := (cleanChars t.data).filter (fun c => c ≠ ',')
    match extractNumeral cleanStr with
    | some q => some (pyInt (qscale mult q))
    | none => none

/-- `CountryScraper.parse_float`: same numeral extraction, no magnitude
handling, returning the numeral itself. -/
def parse_float (t : String) : Option ℚ :=
  if t = "" then none
  else extractNumeral ((cleanChars t.data).filter (fun c => c ≠ ','))

/-! ### `CountryScraper.parse_languages` -/

/-- The fixed exclusion list of boilerplate tokens. -/
def excludedWords : List String :=
  ["List", "List:", "(de facto)", "None", "Languages", "Official", "locally", ";", "[hide]"]

/-- `item.replace(';', '').replace(':', '').strip()`. -/
def cleanToken (s : String) : String :=
  String.mk (pyStrip (s.data.filter (fun c => c ≠ ';' && c ≠ ':')))

/-- First character is a digit (`clean_item[0].isdigit()`; only evaluated
behind the length guard, so the empty case is unreachable in Python). -/
def firstIsDigit (s : String) : Bool :=
  match s.data with
  | [] => false
  | c :: _ => c.isDigit

/-- The filter of `parse_languages`: keep a cleaned token iff it is longer
than two characters, not an excluded phrase, free of the substrings `List`
and `locally`, and does not start with a digit. -/
def keepToken (s : String) : Bool :=
  decide (2 < s.length) && !(excludedWords.contains s) &&
    !(substrL "List".data s.data) && !(substrL "locally".data s.data) && !(firstIsDigit s)

/-- Python's `text.split('|')` (empty pieces kept; `"".split('|') == [""]`). -/
def splitPipe : List Char → List (List Char)
  | [] => [[]]
  | c :: rest =>
    if c = '|' then [] :: splitPipe rest
    else
      match splitPipe rest with
      | [] => [[c]]
      | h :: t => (c :: h) :: t

/-- The surviving cleaned tokens of a flattened cell text, in order, with
duplicates still present. -/
def langTokensRaw (text : String) : List String :=
  (((splitPipe text.data).map String.mk).map cleanToken).filter keepToken

/-- Keep the first occurrence of every string, drop later duplicates. -/
def dedupFirst : List String → List String
  | [] => []
  | s :: rest => s :: (dedupFirst rest).filter (fun t => t ≠ s)

/-- The deduplicated token list (Python's `list(set(langs))` iterates in an
unspecified order, so claims about it are stated up to set equality; this
model fixes the first-occurrence order). -/
def langTokens (text : String) : List String := dedupFirst (langTokensRaw text)

/-- `CountryScraper.parse_languages` on the flattened cell text:
`", ".join(list(set(langs)))`. -/
def parse_languages (text : String) : String :=
  String.intercalate ", " (langTokens text)

/-! ### Neighbor resolution (`get_country_data`, lines 201–208) -/

/-- Lookup in the neighbors map (a Python `dict`, modelled as an association
list with the dict's iteration order). -/
def lookupMap (m : List (String × List String)) (k : String) : Option (List String) :=
  match m with
  | [] => none
  | (a, v) :: t => if a = k then some v else lookupMap t k

/-- Line 206's loop condition: `k and (data['name'] in k or k in data['name'])`
(a falsy — empty — key never matches). -/
def keyMatch (name k : String) : Bool :=
  (!(k = "")) && (substrL name.data k.data || substrL k.data name.data)

/-- The fuzzy fallback: the first *truthy* key that contains the name or is
contained in it. -/
def fuzzyFind (m : List (String × List String)) (name : String) : Option (List String) :=
  match m with
  | [] => none
  | (k, v) :: t => if keyMatch name k then some v else fuzzyFind t name

/-- Neighbor resolution: exact dict lookup first, else the fuzzy fallback,
else the initial empty list. -/
def resolveNeighbors (m : List (String × List String)) (name : String) : List String :=
  match lookupMap m name with
  | some v => v
  | none =>
    match fuzzyFind m name with
    | some v => v
    | none => []

/-! ### The country record and the infobox row loop (`get_country_data`) -/

/-- The `data` dictionary of `get_country_data`.  `name` starts as the truthy
check's `""` and may become `None` through `clean_text`.  The two `Bool`
fields are ghost instrumentation: they flip to `true` exactly when the
corresponding derived-field assignment (lines 276 / 283 of `app.py`) runs. -/
structure CData where
  name : Option String
  capital : Option String
  population : Option Int
  area_in_km2 : Option Int
  density : Option ℚ
  neighbors : List String
  language : Option String
  timezone : Option String
  political_system : Option String
  densityWasDerived : Bool
  areaWasDerived : Bool
deriving Repr, DecidableEq

/-- The fresh record of each entity page. -/
def initCData : CData :=
  ⟨some "", none, none, none, none, [], none, none, none, false, false⟩

/-- One `<tr>` of the infobox that has both a `<th>` and a `<td>`:
the two texts, the link texts of the `<td>` in order, and the `<td>` text
flattened with `'|'` separators after `<sup>` removal (the rendering
`parse_languages` reads). -/
structure RowData where
  thText : String
  tdText : String
  tdLinks : List String
  tdPipeText : String
deriving Repr, DecidableEq

/-- A `<tr>` of the infobox: rows missing the `<th>` or the `<td>` are
`bare` and are skipped by `continue` before any processing. -/
inductive Row where
  | bare
  | kv (r : RowData)
deriving Repr, DecidableEq

/-- `re.sub(r'[^a-z]', '', th.get_text().lower())`. -/
def headerClean (th : String) : List Char :=
  (th.data.map Char.toLower).filter (fun c => decide ('a' ≤ c) && decide (c ≤ 'z'))

/-- Round half to even (the rounding of Python's `f"{x:.1f}"` at one decimal;
floats are modelled as exact rationals, so the binary-representation error of
CPython's double is out of scope). -/
def rhe (q : ℚ) : Int :=
  let f := Rat.floor q
  let r2 := 2 * (q.num - f * q.den)
  if r2 < (q.den : Int) then f
  else if (q.den : Int) < r2 then f + 1
  else if f % 2 = 0 then f else f + 1

/-- `float(f"{population/area:.1f}")`: the quotient rounded to one decimal
place (built with `Rat.divInt` so it evaluates in the kernel). -/
def derivedDensity (p a : Int) : ℚ := Rat.divInt (rhe (Rat.divInt (10 * p) a)) 10

/-- `int(population / density)`: truncation toward zero of `p / q`
(`p / (n/d) = p*d/n`). -/
def derivedArea (p : Int) (q : ℚ) : Int := (p * (q.den : Int)).tdiv q.num

/-- Lines 270–276 of `app.py`: fill `density` from `population`/`area` when
absent and the divisor is positive.  The ghost flag records the assignment. -/
def deriveDensityStep (d : CData) : CData :=
  if d.density.isNone then
    match d.population, d.area_in_km2 with
    | some p, some a =>
      if 0 < a then { d with density := some (derivedDensity p a), densityWasDerived := true }
      else d
    | _, _ => d
  else d

/-- Lines 278–283 of `app.py`: fill `area` from `population`/`density` when
absent and the divisor is positive.  The ghost flag records the assignment. -/
def deriveAreaStep (d : CData) : CData :=
  if d.area_in_km2.isNone then
    match d.population, d.density with
    | some p, some q =>
      if 0 < q then { d with area_in_km2 := some (derivedArea p q), areaWasDerived := true }
      else d
    | _, _ => d
  else d

/-- The derived-field block, lines 270–283: density first, then area. -/
def deriveFields (d : CData) : CData := deriveAreaStep (deriveDensityStep d)

/-- `--- CAPITAL ---`: first link text if any link exists, else the cleaned
text before the first `';'`. -/
def capitalStep (r : RowData) (hc : List Char) (d : CData) : CData :=
  if substrL "capital".data hc then
    match r.tdLinks with
    | a :: _ => { d with capital := some a }
    | [] => { d with capital := clean_text (String.mk (r.tdText.data.takeWhile (fun c => c ≠ ';'))) }
  else d

/-- The list comprehension over `td.find_all('a')`: drop links starting with
`'['`, drop links starting with a digit, and *raise `IndexError`* on a link
with empty visible text (`a.get_text()[0]` on `""`). -/
def validLinks : List String → Except Unit (List String)
  | [] => .ok []
  | a :: as =>
    match a.data with
    | '[' :: _ => validLinks as
    | [] => .error ()
    | c :: _ => if c.isDigit then validLinks as else (validLinks as).map (fun l => a :: l)

/-- `--- POLITICAL SYSTEM ---`: fires when the label has `government` but not
`transitional` and the field is still unset; joined link texts preferred,
falling back to the cleaned cell text unless it starts with a digit. -/
def governmentStep (r : RowData) (hc : List Char) (d : CData) : Except Unit CData :=
  if substrL "government".data hc && !(substrL "transitional".data hc) then
    if d.political_system.isNone then
      match validLinks r.tdLinks with
      | .error e => .error e
      | .ok vl =>
        if vl.isEmpty then
          .ok { d with political_system :=
            match clean_text r.tdText with
            | none => none
            | some t =>
              match t.data with
              | [] => none
              | c :: _ => if c.isDigit then none else some t }
        else .ok { d with political_system := some (String.intercalate ", " vl) }
    else .ok d
  else .ok d

/-- `--- POPULATION ---`: only fills if unset. -/
def populationStep (r : RowData) (hc : List Char) (d : CData) : CData :=
  if (substrL "population".data hc || substrL "estimate".data hc || substrL "census".data hc)
      && d.population.isNone then
    { d with population := parse_number r.tdText }
  else d

/-- `--- DENSITY ---`: overwrites unconditionally (no unset guard). -/
def densityStep (r : RowData) (hc : List Char) (d : CData) : CData :=
  if substrL "density".data hc then { d with density := parse_float r.tdText } else d

/-- `--- AREA ---`: label has `area`, or has `total` with `km` in the cell
text; only fills if unset. -/
def areaStep (r : RowData) (hc : List Char) (d : CData) : CData :=
  if (substrL "area".data hc
      || (substrL "total".data hc && substrL "km".data (pyLower r.tdText)))
      && d.area_in_km2.isNone then
    { d with area_in_km2 := parse_number r.tdText }
  else d

/-- `--- LANGUAGE ---`. -/
def languageStep (r : RowData) (hc : List Char) (d : CData) : CData :=
  if substrL "officiallanguage".data hc || substrL "officialandnational".data hc
      || substrL "nationallanguage".data hc then
    { d with language := some (parse_languages r.tdPipeText) }
  else d

/-- `--- TIMEZONE ---`: `re.split(r'[\[\(]', raw_text)[0]`, cleaned. -/
def timezoneStep (r : RowData) (hc : List Char) (d : CData) : CData :=
  if substrL "timezone".data hc then
    { d with timezone := clean_text (String.mk (r.tdText.data.takeWhile (fun c => c ≠ '[' && c ≠ '('))) }
  else d

/-- The field-classification part of one loop iteration (lines 216–268):
every branch is an independent `if`, several can fire for one row. -/
def rowFieldStep (r : RowData) (d : CData) : Except Unit CData :=
  let hc := headerClean r.thText
  match governmentStep r hc (capitalStep r hc d) with
  | .error e => .error e
  | .ok d1 =>
    .ok (timezoneStep r hc (languageStep r hc (areaStep r hc
      (densityStep r hc (populationStep r hc d1)))))

/-- One full iteration of the row loop as the source executes it: the field
branches followed by the derived-field block, *inside* the loop body. -/
def processRow (r : RowData) (d : CData) : Except Unit CData :=
  (rowFieldStep r d).map deriveFields

/-- One `<tr>`: bare rows are skipped by `continue` (no derivation runs). -/
def stepRow : Row → CData → Except Unit CData
  | .bare, d => .ok d
  | .kv r, d => processRow r d

/-- The row loop of `get_country_data` (lines 211–283). -/
def processRows : List Row → CData → Except Unit CData
  | [], d => .ok d
  | r :: rs, d =>
    match stepRow r d with
    | .error e => .error e
    | .ok d' => processRows rs d'

/-- The field classification alone, folded over the rows (no derivation). -/
def fieldRowsOnly : List Row → CData → Except Unit CData
  | [], d => .ok d
  | .bare :: rs, d => fieldRowsOnly rs d
  | .kv r :: rs, d =>
    match rowFieldStep r d with
    | .error e => .error e
    | .ok d' => fieldRowsOnly rs d'

/-- The assembly as §4.5 of the spec words it: "After all rows are processed,
the derived-field step runs exactly once … using whatever
population/area/density values were populated by row processing." -/
def assembleSpecOnce (rows : List Row) (d : CData) : Except Unit CData :=
  (fieldRowsOnly rows d).map deriveFields

/-! ### Per-entity fetch outcomes and the batch loop (`__main__`) -/

/-- The infobox of an entity page: the optional `div.fn.org` text and the
`<tr>` rows. -/
structure InfoboxModel where
  fnOrg : Option String
  rows : List Row
deriving Repr

/-- A successfully fetched page: optional infobox, optional `<h1>`. -/
structure PageModel where
  infobox : Option InfoboxModel
  h1 : Option String
deriving Repr

/-- What one entity fetch produced: a transport failure (`requests.get`
raised) or a response with a status code and a page. -/
inductive PageOutcome where
  | connError
  | fetched (status : Nat) (page : PageModel)

/-- Name resolution of `get_country_data`: `div.fn.org` text cleaned if the
element exists (even when cleaning yields `None`), else the `<h1>` text
cleaned, else the initial `""`. -/
def resolveName (p : PageModel) (box : InfoboxModel) : Option String :=
  match box.fnOrg with
  | some t => clean_text t
  | none =>
    match p.h1 with
    | some h => clean_text h
    | none => some ""

/-- Python truthiness test of the `name` slot: `None` and `""` are falsy. -/
def nameFalsy : Option String → Bool
  | none => true
  | some s => s = ""

/-- `CountryScraper.get_country_data`: `.ok none` models `return None`
(skipped entity); `.error` models an uncaught exception escaping the row
loop. -/
def getCountryData (nmap : List (String × List String)) :
    PageOutcome → Except Unit (Option CData)
  | .connError => .ok none
  | .fetched status page =>
    if status ≠ 200 then .ok none
    else
      match page.infobox with
      | none => .ok none
      | some box =>
        let nm := resolveName page box
        if nameFalsy nm then .ok none
        else
          let d0 := { initCData with
            name := nm, neighbors := resolveNeighbors nmap (nm.getD "") }
          (processRows box.rows d0).map some

/-- The driving loop of `__main__`: collect `c_data` for each reference when
`c_data and c_data['name']` is truthy; an uncaught exception aborts the
batch. -/
def allData (nmap : List (String × List String)) : List PageOutcome → Except Unit (List CData)
  | [] => .ok []
  | o :: os =>
    match getCountryData nmap o with
    | .error e => .error e
    | .ok none => allData nmap os
    | .ok (some d) =>
      if nameFalsy d.name then allData nmap os
      else (allData nmap os).map (fun l => d :: l)

/-! ### Claim-side definitions and concrete fixtures -/

/-- The fuzzy fallback as claim C5 words it: "the first map key that contains
the record's name as a substring or is contained in it" — with no truthiness
guard on the key, unlike line 206 of the source. -/
def fuzzyFindClaim (m : List (String × List String)) (name : String) : Option (List String) :=
  match m with
  | [] => none
  | (k, v) :: t =>
    if substrL name.data k.data || substrL k.data name.data then some v
    else fuzzyFindClaim t name

/-- The per-entity failure modes listed by claim C8: transport failure,
non-success status, missing fact table, or unresolvable name. -/
def entityFails : PageOutcome → Prop
  | .connError => True
  | .fetched status page =>
    status ≠ 200 ∨ page.infobox = none
      ∨ ∃ box, page.infobox = some box ∧ nameFalsy (resolveName page box) = true

/-- No two adjacent spaces (the shape `re.sub(r'\s+', ' ')` output has, used
by the idempotence proof). -/
def noDouble : List Char → Bool
  | a :: b :: rest => !(a = ' ' && b = ' ') && noDouble (b :: rest)
  | _ => true

instance {α β : Type} [DecidableEq α] [DecidableEq β] : DecidableEq (Except α β) :=
  fun a b =>
    match a, b with
    | .error x, .error y =>
      if h : x = y then .isTrue (by rw [h]) else .isFalse (by simp [h])
    | .ok x, .ok y =>
      if h : x = y then .isTrue (by rw [h]) else .isFalse (by simp [h])
    | .error _, .ok _ => .isFalse (by simp)
    | .ok _, .error _ => .isFalse (by simp)

/-- Fixture: a population row (`<th>Population</th><td>1000</td>`). -/
def rowPop : RowData := ⟨"Population", "1000", [], ""⟩

/-- Fixture: a density row with value `100`. -/
def rowDen : RowData := ⟨"Density", "100", [], ""⟩

/-- Fixture: an area row with value `50`. -/
def rowArea50 : RowData := ⟨"Area", "50", [], ""⟩

/-- Fixture: a density row whose cell holds no numeral (`parse_float`
returns `None`, resetting the slot). -/
def rowDenBad : RowData := ⟨"Density", "No Data", [], ""⟩

/-- Fixture: a government row whose cell contains one hyperlink with empty
visible text (`a.get_text() == ""`). -/
def rowGovBad : RowData := ⟨"Government", "Republic", [""], ""⟩

/-- Fixture: C1's row sequence — population, density, then a real area row. -/
def demoRowsC1 : List Row := [.kv rowPop, .kv rowDen, .kv rowArea50]

/-- Fixture: C4's row sequence — population, density, then a density row that
resets the slot to null. -/
def demoRowsC4 : List Row := [.kv rowPop, .kv rowDen, .kv rowDenBad]

/-- Fixture: the record state after `demoRowsC1`'s first two rows. -/
def stateAfterPopDen : CData :=
  ⟨some "", none, some 1000, some 10, some 100, [], none, none, none, false, true⟩

/-- Fixture: a page whose infobox holds the crashing government row. -/
def pageGovBad : PageModel := ⟨some ⟨some "Testland", [.kv rowGovBad]⟩, none⟩

/-- Fixture: a well-behaved page with one population row. -/
def pageGood : PageModel := ⟨some ⟨some "Goodland", [.kv rowPop]⟩, none⟩

/-! ## Support lemmas -/

theorem mem_dedupFirst {s : String} : ∀ {l : List String}, s ∈ dedupFirst l → s ∈ l
  | t :: rest, h => by
    rcases List.mem_cons.mp h with h | h
    · exact h ▸ List.mem_cons_self t _
    · exact List.mem_cons_of_mem t (mem_dedupFirst (List.mem_filter.mp h).1)

theorem processRows_append (xs ys : List Row) (d : CData) :
    processRows (xs ++ ys) d =
      match processRows xs d with
      | .error e => .error e
      | .ok d' => processRows ys d' := by
  induction xs generalizing d with
  | nil => rfl
  | cons r rs ih =>
    cases h : stepRow r d with
    | error e => simp [processRows, h]
    | ok d' => simp [processRows, h, ih d']

theorem deriveAreaStep_density (d : CData) : (deriveAreaStep d).density = d.density := by
  rcases hp : d.population with _ | p <;> rcases hq : d.density with _ | q <;>
    simp [deriveAreaStep, hp, hq] <;> split_ifs <;> simp_all

theorem deriveAreaStep_of_area_some (d : CData) (h : d.area_in_km2 ≠ none) :
    deriveAreaStep d = d := by
  obtain ⟨a, ha⟩ := Option.ne_none_iff_exists'.mp h
  simp [deriveAreaStep, ha]

theorem deriveAreaStep_of_density_none (d : CData) (h : d.density = none) :
    deriveAreaStep d = d := by
  rcases hp : d.population with _ | p <;> simp [deriveAreaStep, hp, h]

theorem deriveDensityStep_of_density_some (d : CData) (h : d.density ≠ none) :
    deriveDensityStep d = d := by
  obtain ⟨q, hq⟩ := Option.ne_none_iff_exists'.mp h
  simp [deriveDensityStep, hq]

theorem deriveDensityStep_idem (d : CData) :
    deriveDensityStep (deriveDensityStep d) = deriveDensityStep d := by
  rcases hq : d.density with _ | q
  · rcases hp : d.population with _ | p <;> rcases ha : d.area_in_km2 with _ | a <;>
      simp [deriveDensityStep, hq, hp, ha] <;> split_ifs <;>
      simp_all [deriveDensityStep]
  · rw [deriveDensityStep_of_density_some d (by simp [hq]),
        deriveDensityStep_of_density_some d (by simp [hq])]

theorem deriveAreaStep_idem (d : CData) :
    deriveAreaStep (deriveAreaStep d) = deriveAreaStep d := by
  rcases ha : d.area_in_km2 with _ | a
  · rcases hp : d.population with _ | p <;> rcases hq : d.density with _ | q <;>
      simp [deriveAreaStep, ha, hp, hq] <;> split_ifs <;>
      simp_all [deriveAreaStep]
  · rw [deriveAreaStep_of_area_some d (by simp [ha]),
        deriveAreaStep_of_area_some d (by simp [ha])]

theorem deriveFields_idem (d : CData) : deriveFields (deriveFields d) = deriveFields d := by
  show deriveAreaStep (deriveDensityStep (deriveAreaStep (deriveDensityStep d)))
      = deriveAreaStep (deriveDensityStep d)
  rcases hz : (deriveDensityStep d).density with _ | q
  · rw [deriveAreaStep_of_density_none _ hz, deriveDensityStep_idem,
        deriveAreaStep_of_density_none _ hz]
  · rw [deriveDensityStep_of_density_some (deriveAreaStep (deriveDensityStep d))
      (by rw [deriveAreaStep_density, hz]; simp),
      deriveAreaStep_idem]

theorem fuzzyFind_append (name : String) (m₁ m₂ : List (String × List String))
    (k : String) (v : List String) (h₁ : ∀ p ∈ m₁, keyMatch name p.1 = false)
    (hk : keyMatch name k = true) :
    fuzzyFind (m₁ ++ (k, v) :: m₂) name = some v := by
  induction m₁ with
  | nil => simp [fuzzyFind, hk]
  | cons p t ih =>
    have hp := h₁ p (List.mem_cons_self p t)
    rcases p with ⟨k', v'⟩
    simpa [fuzzyFind, hp] using ih fun q hq => h₁ q (List.mem_cons_of_mem _ hq)

theorem fuzzyFind_none (name : String) (m : List (String × List String))
    (h : ∀ p ∈ m, keyMatch name p.1 = false) : fuzzyFind m name = none := by
  induction m with
  | nil => rfl
  | cons p t ih =>
    rcases p with ⟨k', v'⟩
    simpa [fuzzyFind, h (k', v') (List.mem_cons_self _ _)] using
      ih fun q hq => h q (List.mem_cons_of_mem _ hq)

theorem getCountryData_skip (nmap : List (String × List String)) (o : PageOutcome)
    (h : entityFails o) : getCountryData nmap o = .ok none := by
  cases o with
  | connError => rfl
  | fetched status page =>
    by_cases hs : status = 200
    · subst hs
      rcases h with h | h | ⟨box, hbox, hname⟩
      · exact absurd rfl h
      · simp [getCountryData, h]
      · simp [getCountryData, hbox, hname]
    · simp [getCountryData, hs]

/-! ## Claim theorems -/

/-- C6: `parse_number` detects at most one magnitude word, checking billion
first, then million, then trillion, applying only the first match; it strips
thousands separators, extracts the first numeral, multiplies, and truncates
to an integer.  The four specified examples, plus inputs holding two
magnitude words witnessing the fixed check order, and a truncation case. -/
theorem c6_parse_number_magnitude :
    parse_number "1,234" = some 1234 ∧
    parse_number "35 million" = some 35000000 ∧
    parse_number "1.5 billion" = some 1500000000 ∧
    parse_number "No Data" = none ∧
    parse_number "5 billion million" = some 5000000000 ∧
    parse_number "5 billion trillion" = some 5000000000 ∧
    parse_number "5 million trillion" = some 5000000 ∧
    parse_number "6 trillion" = some 6000000000000 ∧
    parse_number "3.14" = some 3 := by decide

/-- C3: the derived-field law — a record with `population=1000`,
`area_km2=10`, `density=null` gets `density=100.0`; one with
`population=1000`, `area_km2=null`, `density=100.0` gets `area_km2=10`; and
a record with both `area_km2` and `density` set is untouched by derivation. -/
theorem c3_derived_field_law :
    ((deriveFields { initCData with population := some 1000, area_in_km2 := some 10 }).density
        = some 100
      ∧ (deriveFields { initCData with population := some 1000, density := some 100 }).area_in_km2
        = some 10)
    ∧ ∀ d : CData, d.area_in_km2 ≠ none → d.density ≠ none → deriveFields d = d := by
  refine ⟨by decide, fun d h1 h2 => ?_⟩
  show deriveAreaStep (deriveDensityStep d) = d
  rw [deriveDensityStep_of_density_some d h2, deriveAreaStep_of_area_some d h1]

theorem c3_derived_field_law_witness :
    deriveFields { initCData with area_in_km2 := some 7, density := some 2 }
      = { initCData with area_in_km2 := some 7, density := some 2 } :=
  c3_derived_field_law.2 _ (by decide) (by decide)

/-- C1 (counterexample): on the row sequence population=1000, density=100,
area=50, the in-loop derivation fixes `area=10` after the density row, so the
real area row is ignored, while running the derived-field step once after all
rows would keep `area=50` — the claim's "runs exactly once, after all rows"
is false of the code. -/
theorem c1_counterexample :
    processRows demoRowsC1 initCData = .ok stateAfterPopDen
    ∧ stateAfterPopDen.area_in_km2 = some 10
    ∧ (assembleSpecOnce demoRowsC1 initCData).map CData.area_in_km2 = .ok (some 50)
    ∧ processRows demoRowsC1 initCData ≠ assembleSpecOnce demoRowsC1 initCData := by decide

/-- C1 (amended): the derived-field block runs inside the row loop, once
after every key/value row, on the values populated so far; consequently any
assembly ending in a key/value row yields a record that is already a fixed
point of the derived-field step. -/
theorem c1_amended (rows : List Row) (r : RowData) (d s : CData)
    (h : processRows (rows ++ [.kv r]) d = .ok s) : deriveFields s = s := by
  rw [processRows_append] at h
  cases hx : processRows rows d with
  | error e => rw [hx] at h; cases h
  | ok d1 =>
    rw [hx] at h
    cases hy : rowFieldStep r d1 with
    | error e => simp [processRows, stepRow, processRow, hy, Except.map] at h
    | ok d2 =>
      simp [processRows, stepRow, processRow, hy, Except.map] at h
      rw [← h]
      exact deriveFields_idem d2

theorem c1_amended_witness : deriveFields stateAfterPopDen = stateAfterPopDen :=
  c1_amended [.kv rowPop, .kv rowDen] rowArea50 initCData stateAfterPopDen (by decide)

/-- C4 (counterexample): on population=1000, density=100, then a density row
whose cell has no numeral, the code first derives `area` (after the density
row) and later, after the bad row resets `density` to null, derives `density`
as well — both ghost flags end `true`, refuting "density and area are never
both derived for the same record". -/
theorem c4_counterexample :
    processRows demoRowsC4 initCData = .ok { stateAfterPopDen with densityWasDerived := true }
    ∧ ({ stateAfterPopDen with densityWasDerived := true } : CData).densityWasDerived = true
    ∧ ({ stateAfterPopDen with densityWasDerived := true } : CData).areaWasDerived = true := by
  decide

/-- C4 (amended): within one run of the derived-field block at most one of
the two derivations fires, and each fires only when both of its inputs are
present with a strictly positive divisor; across a whole record, however,
both can fire at different rows (see the counterexample). -/
theorem c4_amended (d : CData) :
    ((deriveFields d).density ≠ d.density →
      d.density = none ∧ ∃ p a, d.population = some p ∧ d.area_in_km2 = some a ∧ 0 < a)
    ∧ ((deriveFields d).area_in_km2 ≠ d.area_in_km2 →
      d.area_in_km2 = none ∧ ∃ p q, d.population = some p ∧ d.density = some q ∧ 0 < q)
    ∧ ¬((deriveFields d).density ≠ d.density ∧ (deriveFields d).area_in_km2 ≠ d.area_in_km2) := by
  rcases hq : d.density with _ | q <;> rcases hp : d.population with _ | p <;>
    rcases ha : d.area_in_km2 with _ | a <;>
    simp [deriveFields, deriveDensityStep, deriveAreaStep, hq, hp, ha] <;>
    split_ifs <;> simp_all

/-- Witness for `c4_amended`: on a record with population 1000, area 10 and
null density, the density derivation is the (only) one that fires, and the
guards it needs hold. -/
theorem c4_amended_witness :
    ({ initCData with population := some 1000, area_in_km2 := some 10 } : CData).density = none
    ∧ ∃ p a, ({ initCData with population := some 1000, area_in_km2 := some 10 } : CData).population = some p
        ∧ ({ initCData with population := some 1000, area_in_km2 := some 10 } : CData).area_in_km2 = some a
        ∧ 0 < a :=
  (c4_amended { initCData with population := some 1000, area_in_km2 := some 10 }).1 (by decide)

/-- C5 (counterexample): with neighbor map `{"": ["A"], "X": ["B"]}` and
record name `"aXb"` there is no exact match, and the claim's fuzzy rule
("the first map key that contains the record's name or is contained in it")
picks the empty key, i.e. `["A"]` — but the code skips falsy keys
(`if k and …`) and assigns `["B"]`. -/
theorem c5_counterexample :
    lookupMap [("", ["A"]), ("X", ["B"])] "aXb" = none
    ∧ fuzzyFindClaim [("", ["A"]), ("X", ["B"])] "aXb" = some ["A"]
    ∧ resolveNeighbors [("", ["A"]), ("X", ["B"])] "aXb" = ["B"] := by decide

/-- C5 (amended): an exact key match is always assigned; with no exact match
the entry of the first *non-empty* key containing the name or contained in it
is assigned; and when no key matches either way the neighbors stay `[]`. -/
theorem c5_amended (m : List (String × List String)) (name : String) :
    (∀ v, lookupMap m name = some v → resolveNeighbors m name = v)
    ∧ (lookupMap m name = none → ∀ m₁ k v m₂, m = m₁ ++ (k, v) :: m₂ →
        (∀ p ∈ m₁, keyMatch name p.1 = false) → keyMatch name k = true →
        resolveNeighbors m name = v)
    ∧ (lookupMap m name = none → (∀ p ∈ m, keyMatch name p.1 = false) →
        resolveNeighbors m name = []) := by
  refine ⟨fun v hv => ?_, fun hn m₁ k v m₂ hm h₁ hk => ?_, fun hn hall => ?_⟩
  · simp [resolveNeighbors, hv]
  · rw [resolveNeighbors, hn, hm, fuzzyFind_append name m₁ m₂ k v h₁ hk]
  · rw [resolveNeighbors, hn, fuzzyFind_none name m hall]

/-- Witness for `c5_amended`: the exact entry for "South Sudan" is returned
even though the key "Sudan" would fuzzily match first. -/
theorem c5_amended_witness :
    resolveNeighbors [("Sudan", ["Egypt"]), ("South Sudan", ["Kenya"])] "South Sudan"
      = ["Kenya"] :=
  (c5_amended [("Sudan", ["Egypt"]), ("South Sudan", ["Kenya"])] "South Sudan").1
    ["Kenya"] (by decide)

/-- C9: the claim says row classification never raises, but a key/value row
whose label matches `government` and whose cell holds a hyperlink with empty
visible text makes `a.get_text()[0]` raise an `IndexError` that escapes
`get_country_data` (only the fetch is inside `try`) and aborts the whole
batch. -/
theorem c9_empty_link_raises :
    getCountryData [] (.fetched 200 pageGovBad) = .error ()
    ∧ allData [] [.fetched 200 pageGovBad, .fetched 200 pageGood] = .error () := by decide

/-- C8: an entity whose fetch fails, returns a non-200 status, lacks an
infobox, or has an unresolvable name contributes nothing — removing such an
outcome from the batch leaves the output unchanged; and no record of a
successful batch has a falsy (null or empty) name. -/
theorem c8_per_entity_skip :
    (∀ nmap o pre post, entityFails o →
      allData nmap (pre ++ o :: post) = allData nmap (pre ++ post))
    ∧ (∀ nmap os l, allData nmap os = .ok l → ∀ d ∈ l, nameFalsy d.name = false) := by
  constructor
  · intro nmap o pre post h
    induction pre with
    | nil => simp [allData, getCountryData_skip nmap o h]
    | cons p t ih =>
      simp only [List.cons_append, allData]
      cases hg : getCountryData nmap p with
      | error e => rfl
      | ok od =>
        cases od with
        | none => exact ih
        | some d =>
          cases hf : nameFalsy d.name with
          | true => simpa [hf] using ih
          | false => simp [hf, ih]
  · intro nmap os
    induction os with
    | nil =>
      intro l hl d hd
      simp only [allData] at hl
      cases hl
      cases hd
    | cons o t ih =>
      intro l hl d hd
      simp only [allData] at hl
      cases hg : getCountryData nmap o with
      | error e => rw [hg] at hl; cases hl
      | ok od =>
        rw [hg] at hl
        cases od with
        | none => exact ih l hl d hd
        | some d0 =>
          have hl' : (if nameFalsy d0.name = true then allData nmap t
              else Except.map (fun l => d0 :: l) (allData nmap t)) = Except.ok l := hl
          cases hf : nameFalsy d0.name with
          | true => rw [hf] at hl'; exact ih l (by simpa using hl') d hd
          | false =>
            rw [hf] at hl'
            cases ht : allData nmap t with
            | error e => rw [ht] at hl'; cases hl'
            | ok l' =>
              rw [ht] at hl'
              simp only [Except.map] at hl'
              cases hl'
              rcases List.mem_cons.mp hd with rfl | hd'
              · exact hf
              · exact ih l' ht d hd'

theorem c8_per_entity_skip_witness :
    allData [] [.fetched 200 pageGood, .connError] = allData [] [.fetched 200 pageGood] :=
  c8_per_entity_skip.1 [] .connError [.fetched 200 pageGood] [] trivial

/-- C7: every surviving language token is longer than two characters, is not
an excluded phrase, contains neither `List` nor `locally`, and does not start
with a digit; survivors are deduplicated and the example cell yields exactly
the set of `English` and `French`. -/
theorem c7_language_extraction :
    (∀ text tok, tok ∈ langTokens text →
      2 < tok.length ∧ excludedWords.contains tok = false
        ∧ substrL "List".data tok.data = false
        ∧ substrL "locally".data tok.data = false
        ∧ firstIsDigit tok = false)
    ∧ langTokens "English|English|French|[hide]|List" = ["English", "French"]
    ∧ (∀ s : String, s ∈ langTokens "English|English|French|[hide]|List"
        ↔ (s = "English" ∨ s = "French")) := by
  refine ⟨fun text tok h => ?_, by decide, fun s => ?_⟩
  · have h3 := (List.mem_filter.mp (mem_dedupFirst h)).2
    rw [keepToken] at h3
    repeat rw [Bool.and_eq_true] at h3
    obtain ⟨⟨⟨⟨h1, h2⟩, h4⟩, h5⟩, h6⟩ := h3
    exact ⟨by simpa using h1, by simpa using h2, by simpa using h4,
      by simpa using h5, by simpa using h6⟩
  · rw [show langTokens "English|English|French|[hide]|List" = ["English", "French"]
      from by decide]
    simp

theorem c7_language_extraction_witness :
    2 < "English".length ∧ excludedWords.contains "English" = false
      ∧ substrL "List".data "English".data = false
      ∧ substrL "locally".data "English".data = false
      ∧ firstIsDigit "English" = false :=
  c7_language_extraction.1 "English|English|French|[hide]|List" "English" (by decide)

/-! ## Substring and span-removal lemmas (for C10 and C2) -/

theorem qscale_eq (k : Int) (q : ℚ) : qscale k q = k * q := by
  rw [qscale, Rat.divInt_eq_div]
  push_cast
  rw [mul_div_assoc, Rat.num_div_den]

theorem startsL_append (n : List Char) : ∀ (l post : List Char),
    startsL n l = true → startsL n (l ++ post) = true := by
  induction n with
  | nil => intro l post _; rfl
  | cons a as ih =>
    intro l post h
    cases l with
    | nil => cases h
    | cons b bs =>
      rw [List.cons_append]
      rw [startsL] at h ⊢
      rw [Bool.and_eq_true] at h ⊢
      exact ⟨h.1, ih bs post h.2⟩

theorem substrL_nil_needle : ∀ l : List Char, substrL [] l = true := by
  intro l
  cases l with
  | nil => rfl
  | cons b bs => rfl

theorem substrL_cons_hay (n : List Char) (x : Char) (l : List Char)
    (h : substrL n l = true) : substrL n (x :: l) = true := by
  rw [substrL, h, Bool.or_true]

theorem substrL_append_right (n : List Char) : ∀ (l post : List Char),
    substrL n l = true → substrL n (l ++ post) = true := by
  intro l
  induction l with
  | nil =>
    intro post h
    cases n with
    | nil => exact substrL_nil_needle post
    | cons a as => cases h
  | cons b bs ih =>
    intro post h
    rw [substrL] at h
    cases hs : startsL n (b :: bs) with
    | true =>
      have h2 := startsL_append n (b :: bs) post hs
      rw [List.cons_append] at h2
      rw [List.cons_append, substrL, h2, Bool.true_or]
    | false =>
      rw [hs, Bool.false_or] at h
      rw [List.cons_append]
      exact substrL_cons_hay n b (bs ++ post) (ih post h)

theorem substrL_append_left (n : List Char) (pre l : List Char)
    (h : substrL n l = true) : substrL n (pre ++ l) = true := by
  induction pre with
  | nil => exact h
  | cons x xs ih => exact substrL_cons_hay n x (xs ++ l) ih

theorem rmF_nil (o c : Char) (n : Nat) : rmF o c n [] = [] := by
  cases n <;> rfl

theorem findClose_append (c : Char) : ∀ (l r : List Char), c ∉ l → '\n' ∉ l →
    findClose c (l ++ c :: r) = some r := by
  intro l
  induction l with
  | nil => intro r _ _; simp [findClose]
  | cons x xs ih =>
    intro r hc hn
    have hx : ¬x = c := fun h => hc (h ▸ List.mem_cons_self x xs)
    have hx2 : ¬x = '\n' := fun h => hn (h ▸ List.mem_cons_self x xs)
    rw [List.cons_append, findClose, if_neg hx, if_neg hx2]
    exact ih r (fun h => hc (List.mem_cons_of_mem x h))
      (fun h => hn (List.mem_cons_of_mem x h))

/-- `removeSpans` on `d[w]` with no closer or line break inside `w` deletes
the whole citation span. -/
theorem removeSpans_cite (d : Char) (hd : ¬d = '[') (w : List Char)
    (hc : ']' ∉ w) (hn : '\n' ∉ w) :
    removeSpans '[' ']' (d :: '[' :: (w ++ [']'])) = [d] := by
  have hlen : (d :: '[' :: (w ++ [']'])).length = (w.length + 1) + 1 + 1 := by simp
  rw [removeSpans, hlen, rmF, if_neg hd, rmF, if_pos rfl,
    show w ++ [']'] = w ++ ']' :: [] from rfl, findClose_append ']' w [] hc hn]
  show d :: rmF '[' ']' (w.length + 1) [] = [d]
  rw [rmF_nil]

/-- C10: the magnitude word is detected on the raw lower-cased text — even
inside a bracketed citation — while the numeral is taken from the cleaned
text: for any digit-free, closer-free, break-free `w` that contains
`billion` once lower-cased, `parse_number ("7[" ++ w ++ "]")` is `7·10⁹`;
and a magnitude word inside a parenthetical behaves the same. -/
theorem c10_magnitude_on_raw_text (w : String)
    (hb : substrL "billion".data (pyLower w) = true)
    (hsafe : ∀ ch ∈ w.data, ¬ch.isDigit ∧ ch ≠ ']' ∧ ch ≠ '\n') :
    parse_number ("7[" ++ w ++ "]") = some 7000000000
    ∧ parse_number "2 (million)" = some 2000000 := by
  refine ⟨?_, by decide⟩
  have hdata : ("7[" ++ w ++ "]").data = '7' :: '[' :: (w.data ++ [']']) := by
    simp [String.data_append]
  have hne : ¬("7[" ++ w ++ "]") = "" := by
    intro h
    have h2 := congrArg String.data h
    rw [hdata] at h2
    cases h2
  have hmult : magMultiplier (pyLower ("7[" ++ w ++ "]")) = 1000000000 := by
    have hsub : substrL "billion".data (pyLower ("7[" ++ w ++ "]")) = true := by
      rw [pyLower, hdata]
      simp only [List.map_cons, List.map_append]
      exact substrL_cons_hay _ _ _ (substrL_cons_hay _ _ _
        (substrL_append_right _ _ _ hb))
    rw [magMultiplier, if_pos hsub]
  have hclean : cleanChars ("7[" ++ w ++ "]").data = ['7'] := by
    rw [hdata, cleanChars,
      removeSpans_cite '7' (by decide) w.data
        (fun h => (hsafe _ h).2.1 rfl) (fun h => (hsafe _ h).2.2 rfl)]
    rfl
  rw [parse_number, if_neg hne, hmult, hclean]
  rfl

theorem c10_magnitude_on_raw_text_witness :
    parse_number ("7[" ++ "billion" ++ "]") = some 7000000000
    ∧ parse_number "2 (million)" = some 2000000 :=
  c10_magnitude_on_raw_text "billion" (by decide) (by decide)

/-! ## Idempotence of the cleaning pipeline (C2)

After one pass, the output of `clean_text` contains no removable `[...]` or
`(...)` span, no line break, no whitespace other than single interior
spaces, and no leading/trailing space — so a second pass (on a break-free
input whose first pass is non-empty) is the identity.  The lemmas below
establish each of these shape facts and that each pipeline stage preserves
the shapes established by the earlier ones. -/

theorem findClose_length (c : Char) : ∀ (l r : List Char),
    findClose c l = some r → r.length < l.length := by
  intro l
  induction l with
  | nil => intro r h; cases h
  | cons x xs ih =>
    intro r h
    rw [findClose] at h
    by_cases h1 : x = c
    · rw [if_pos h1] at h
      injection h with h3
      subst h3
      exact Nat.lt_succ_of_le (Nat.le_refl _)
    · rw [if_neg h1] at h
      by_cases h2 : x = '\n'
      · rw [if_pos h2] at h
        cases h
      · rw [if_neg h2] at h
        exact Nat.lt_succ_of_lt (ih r h)

theorem findClose_sublist (c : Char) : ∀ (l r : List Char),
    findClose c l = some r → r.Sublist l := by
  intro l
  induction l with
  | nil => intro r h; cases h
  | cons x xs ih =>
    intro r h
    rw [findClose] at h
    by_cases h1 : x = c
    · rw [if_pos h1] at h
      injection h with h3
      subst h3
      exact List.sublist_cons_self x xs
    · rw [if_neg h1] at h
      by_cases h2 : x = '\n'
      · rw [if_pos h2] at h
        cases h
      · rw [if_neg h2] at h
        exact (ih r h).cons x

theorem rmF_sublist (o c : Char) : ∀ (n : Nat) (l : List Char), (rmF o c n l).Sublist l := by
  intro n
  induction n with
  | zero => intro l; exact List.Sublist.refl l
  | succ n ih =>
    intro l
    cases l with
    | nil => exact List.Sublist.refl []
    | cons x xs =>
      rw [rmF]
      split_ifs with h1
      · cases hf : findClose c xs with
        | none => exact (ih xs).cons₂ x
        | some rest => exact ((ih rest).trans (findClose_sublist c xs rest hf)).cons x
      · exact (ih xs).cons₂ x

theorem removeSpans_sublist (o c : Char) (l : List Char) :
    (removeSpans o c l).Sublist l := rmF_sublist o c l.length l

theorem findClose_none_of_not_mem (c : Char) : ∀ (l : List Char),
    c ∉ l → findClose c l = none := by
  intro l
  induction l with
  | nil => intro _; rfl
  | cons x xs ih =>
    intro h
    have hx : ¬x = c := fun he => h (he ▸ List.mem_cons_self x xs)
    rw [findClose, if_neg hx]
    split_ifs with h2
    · rfl
    · exact ih fun hm => h (List.mem_cons_of_mem x hm)

theorem not_mem_of_findClose_none (c : Char) : ∀ (l : List Char),
    '\n' ∉ l → findClose c l = none → c ∉ l := by
  intro l
  induction l with
  | nil => intro _ _ h; cases h
  | cons x xs ih =>
    intro hn h
    rw [findClose] at h
    split_ifs at h with h1 h2
    · exact absurd (h2 ▸ List.mem_cons_self x xs) hn
    · intro hm
      rcases List.mem_cons.mp hm with hm | hm
      · exact h1 hm.symm
      · exact ih (fun hq => hn (List.mem_cons_of_mem x hq)) h hm

theorem rmF_eq_of_le (o c : Char) : ∀ (n m : Nat) (l : List Char),
    l.length ≤ n → l.length ≤ m → rmF o c n l = rmF o c m l := by
  intro n
  induction n with
  | zero =>
    intro m l hn _
    have hl : l = [] := List.eq_nil_of_length_eq_zero (Nat.le_zero.mp hn)
    subst hl
    rw [rmF_nil, rmF_nil]
  | succ n ih =>
    intro m l hn hm
    cases l with
    | nil => rw [rmF_nil, rmF_nil]
    | cons x xs =>
      cases m with
      | zero => simp at hm
      | succ m' =>
        have hxsn : xs.length ≤ n := Nat.le_of_succ_le_succ hn
        have hxsm : xs.length ≤ m' := Nat.le_of_succ_le_succ hm
        rw [rmF, rmF]
        split_ifs with h1
        · cases hf : findClose c xs with
          | none => simp only [hf]; rw [ih m' xs hxsn hxsm]
          | some rest =>
            simp only [hf]
            have hr := findClose_length c xs rest hf
            exact ih m' rest (Nat.le_of_lt (Nat.lt_of_lt_of_le hr hxsn))
              (Nat.le_of_lt (Nat.lt_of_lt_of_le hr hxsm))
        · rw [ih m' xs hxsn hxsm]

theorem rmF_id_split (o c : Char) : ∀ (n : Nat) (s₁ s₂ : List Char),
    o ∉ s₁ → c ∉ s₂ → rmF o c n (s₁ ++ s₂) = s₁ ++ s₂ := by
  intro n
  induction n with
  | zero => intro s₁ s₂ _ _; rw [rmF]
  | succ n ih =>
    intro s₁ s₂ h1 h2
    cases s₁ with
    | cons a t =>
      have ha : ¬a = o := fun h => h1 (h ▸ List.mem_cons_self a t)
      rw [List.cons_append, rmF, if_neg ha]
      rw [show t ++ s₂ = t ++ s₂ from rfl]
      rw [ih t s₂ (fun h => h1 (List.mem_cons_of_mem a h)) h2]
    | nil =>
      rw [List.nil_append]
      cases s₂ with
      | nil => rw [rmF_nil]
      | cons b u =>
        have hbu : c ∉ u := fun h => h2 (List.mem_cons_of_mem b h)
        have hrec : rmF o c n u = u := by
          have := ih [] u (by simp) hbu
          rwa [List.nil_append] at this
        rw [rmF]
        split_ifs with hb
        · rw [findClose_none_of_not_mem c u hbu]
          rw [hrec]
        · rw [hrec]

theorem removeSpans_id_split (o c : Char) (s₁ s₂ : List Char)
    (h1 : o ∉ s₁) (h2 : c ∉ s₂) : removeSpans o c (s₁ ++ s₂) = s₁ ++ s₂ :=
  rmF_id_split o c (s₁ ++ s₂).length s₁ s₂ h1 h2

theorem rmF_split_exists (o c : Char) (hoc : o ≠ c) : ∀ (n : Nat) (l : List Char),
    l.length ≤ n → '\n' ∉ l →
    ∃ s₁ s₂, rmF o c n l = s₁ ++ s₂ ∧ o ∉ s₁ ∧ c ∉ s₂ := by
  intro n
  induction n with
  | zero =>
    intro l hn _
    have hl : l = [] := List.eq_nil_of_length_eq_zero (Nat.le_zero.mp hn)
    subst hl
    exact ⟨[], [], by rw [rmF]; rfl, by simp, by simp⟩
  | succ n ih =>
    intro l hn hnl
    cases l with
    | nil => exact ⟨[], [], by rw [rmF_nil]; rfl, by simp, by simp⟩
    | cons x xs =>
      have hxs_len : xs.length ≤ n := Nat.le_of_succ_le_succ hn
      have hxs_nl : '\n' ∉ xs := fun h => hnl (List.mem_cons_of_mem x h)
      by_cases hx : x = o
      · cases hf : findClose c xs with
        | some rest =>
          have hrl : rest.length ≤ n :=
            Nat.le_of_lt (Nat.lt_of_lt_of_le (findClose_length c xs rest hf) hxs_len)
          have hrnl : '\n' ∉ rest :=
            fun h => hxs_nl ((findClose_sublist c xs rest hf).subset h)
          obtain ⟨s₁, s₂, heq, h1, h2⟩ := ih rest hrl hrnl
          refine ⟨s₁, s₂, ?_, h1, h2⟩
          rw [rmF, if_pos hx]
          simp only [hf]
          exact heq
        | none =>
          have hcm : c ∉ xs := not_mem_of_findClose_none c xs hxs_nl hf
          refine ⟨[], x :: rmF o c n xs, ?_, by simp, ?_⟩
          · rw [rmF, if_pos hx]
            simp only [hf]
            rfl
          · intro hm
            rcases List.mem_cons.mp hm with hm | hm
            · exact hoc (hx ▸ hm.symm)
            · exact hcm ((rmF_sublist o c n xs).subset hm)
      · obtain ⟨s₁, s₂, heq, h1, h2⟩ := ih xs hxs_len hxs_nl
        refine ⟨x :: s₁, s₂, ?_, ?_, h2⟩
        · rw [rmF, if_neg hx, heq, List.cons_append]
        · intro hm
          rcases List.mem_cons.mp hm with hm | hm
          · exact hx hm.symm
          · exact h1 hm

theorem removeSpans_split_exists (o c : Char) (hoc : o ≠ c) (l : List Char)
    (hnl : '\n' ∉ l) :
    ∃ s₁ s₂, removeSpans o c l = s₁ ++ s₂ ∧ o ∉ s₁ ∧ c ∉ s₂ :=
  rmF_split_exists o c hoc l.length l (Nat.le_refl _) hnl

theorem split_of_sublist {o c : Char} {t s₁ s₂ : List Char} (h : t.Sublist (s₁ ++ s₂))
    (h1 : o ∉ s₁) (h2 : c ∉ s₂) : ∃ t₁ t₂, t = t₁ ++ t₂ ∧ o ∉ t₁ ∧ c ∉ t₂ := by
  obtain ⟨t₁, t₂, rfl, hs₁, hs₂⟩ := List.sublist_append_iff.mp h
  exact ⟨t₁, t₂, rfl, fun hm => h1 (hs₁.subset hm), fun hm => h2 (hs₂.subset hm)⟩

theorem split_of_map {o c : Char} (f : Char → Char) (hf₁ : ∀ ch, f ch = o → ch = o)
    (hf₂ : ∀ ch, f ch = c → ch = c) {s₁ s₂ : List Char} (h1 : o ∉ s₁) (h2 : c ∉ s₂) :
    ∃ t₁ t₂, (s₁ ++ s₂).map f = t₁ ++ t₂ ∧ o ∉ t₁ ∧ c ∉ t₂ := by
  refine ⟨s₁.map f, s₂.map f, List.map_append f s₁ s₂, fun hm => ?_, fun hm => ?_⟩
  · obtain ⟨ch, hch, hfe⟩ := List.mem_map.mp hm
    exact h1 (hf₁ ch hfe ▸ hch)
  · obtain ⟨ch, hch, hfe⟩ := List.mem_map.mp hm
    exact h2 (hf₂ ch hfe ▸ hch)

theorem map_id_of_mem (f : Char → Char) : ∀ (l : List Char),
    (∀ a ∈ l, f a = a) → l.map f = l := by
  intro l
  induction l with
  | nil => intro _; rfl
  | cons a t ih =>
    intro h
    rw [List.map_cons, h a (List.mem_cons_self a t),
      ih fun b hb => h b (List.mem_cons_of_mem a hb)]

theorem squeeze_cons : ∀ (rest : List Char) (b : Char),
    ∃ t, squeeze (b :: rest) = b :: t := by
  intro rest
  induction rest with
  | nil => intro b; exact ⟨[], rfl⟩
  | cons cc r ih =>
    intro b
    rw [squeeze]
    by_cases h : b = ' ' ∧ cc = ' '
    · obtain ⟨t, ht⟩ := ih cc
      rw [if_pos (by simp [h.1, h.2])]
      rw [ht]
      exact ⟨t, by rw [h.1, h.2]⟩
    · rw [if_neg (by simpa using fun hb hc => h ⟨hb, hc⟩)]
      exact ⟨squeeze (cc :: r), rfl⟩

theorem squeeze_sublist : ∀ (l : List Char), (squeeze l).Sublist l := by
  intro l
  induction l with
  | nil => exact List.Sublist.refl []
  | cons a l' ih =>
    cases l' with
    | nil => exact List.Sublist.refl [a]
    | cons b r =>
      rw [squeeze]
      split_ifs with h
      · exact ih.cons a
      · exact ih.cons₂ a

theorem noDouble_tail : ∀ (a : Char) (w : List Char),
    noDouble (a :: w) = true → noDouble w = true := by
  intro a w h
  cases w with
  | nil => rfl
  | cons b r =>
    rw [noDouble, Bool.and_eq_true] at h
    exact h.2

theorem squeeze_noDouble : ∀ (l : List Char), noDouble (squeeze l) = true := by
  intro l
  induction l with
  | nil => rfl
  | cons a l' ih =>
    cases l' with
    | nil => rfl
    | cons b r =>
      rw [squeeze]
      split_ifs with h
      · exact ih
      · obtain ⟨t, ht⟩ := squeeze_cons r b
        rw [ht, noDouble, Bool.and_eq_true]
        have hcond := Bool.of_not_eq_true h
        exact ⟨by rw [hcond]; rfl, ht ▸ ih⟩

theorem noDouble_append_right : ∀ (u v : List Char),
    noDouble (u ++ v) = true → noDouble v = true := by
  intro u
  induction u with
  | nil => intro v h; exact h
  | cons a u' ih => intro v h; exact ih v (noDouble_tail a (u' ++ v) h)

theorem noDouble_append_left : ∀ (u v : List Char),
    noDouble (u ++ v) = true → noDouble u = true := by
  intro u
  induction u with
  | nil => intro _ _; rfl
  | cons a u' ih =>
    intro v h
    cases u' with
    | nil => rfl
    | cons b r =>
      rw [List.cons_append, List.cons_append] at h
      rw [noDouble, Bool.and_eq_true] at h
      rw [noDouble, Bool.and_eq_true]
      refine ⟨h.1, ih v ?_⟩
      rw [List.cons_append]
      exact h.2

theorem squeeze_id : ∀ (l : List Char), noDouble l = true → squeeze l = l := by
  intro l
  induction l with
  | nil => intro _; rfl
  | cons a l' ih =>
    cases l' with
    | nil => intro _; rfl
    | cons b r =>
      intro h
      rw [noDouble, Bool.and_eq_true] at h
      have hcond : (decide (a = ' ') && decide (b = ' ')) = false := by
        have h1 := h.1
        cases hb : (decide (a = ' ') && decide (b = ' ')) with
        | false => rfl
        | true => rw [hb] at h1; cases h1
      rw [squeeze, if_neg (by rw [hcond]; exact fun hf => Bool.false_ne_true hf), ih h.2]

theorem dropWhile_head_false (p : Char → Bool) : ∀ (l : List Char) (x : Char)
    (xs : List Char), l.dropWhile p = x :: xs → p x = false := by
  intro l
  induction l with
  | nil => intro x xs h; cases h
  | cons a t ih =>
    intro x xs h
    rw [List.dropWhile_cons] at h
    split_ifs at h with hp
    · exact ih x xs h
    · injection h with h1 h2
      subst h1
      exact Bool.of_not_eq_true hp

theorem dropWhile_dropWhile (p : Char → Bool) (l : List Char) :
    (l.dropWhile p).dropWhile p = l.dropWhile p := by
  cases hd : l.dropWhile p with
  | nil => rfl
  | cons x xs =>
    rw [List.dropWhile_cons, if_neg]
    rw [dropWhile_head_false p l x xs hd]
    exact fun h => Bool.false_ne_true h

theorem dropTrail_decomp (l : List Char) : ∃ r, l = dropTrailWS l ++ r := by
  obtain ⟨u, hu⟩ := List.dropWhile_suffix (l := l.reverse) pyIsSpace
  refine ⟨u.reverse, ?_⟩
  rw [dropTrailWS]
  calc l = l.reverse.reverse := (List.reverse_reverse l).symm
  _ = (u ++ l.reverse.dropWhile pyIsSpace).reverse := by rw [hu]
  _ = (l.reverse.dropWhile pyIsSpace).reverse ++ u.reverse := List.reverse_append u _

theorem dropTrail_idem (l : List Char) :
    dropTrailWS (dropTrailWS l) = dropTrailWS l := by
  rw [dropTrailWS, dropTrailWS, List.reverse_reverse, dropWhile_dropWhile]

theorem dropTrail_sublist (l : List Char) : (dropTrailWS l).Sublist l := by
  rw [dropTrailWS]
  have h1 : ((l.reverse.dropWhile pyIsSpace)).Sublist l.reverse :=
    List.dropWhile_sublist pyIsSpace
  have h2 : ((l.reverse.dropWhile pyIsSpace).reverse).Sublist l.reverse.reverse :=
    List.reverse_sublist.mpr h1
  rwa [List.reverse_reverse] at h2

theorem pyStrip_sublist (l : List Char) : (pyStrip l).Sublist l :=
  (dropTrail_sublist (l.dropWhile pyIsSpace)).trans (List.dropWhile_sublist pyIsSpace)

theorem pyStrip_idem (l : List Char) : pyStrip (pyStrip l) = pyStrip l := by
  have h1 : List.dropWhile pyIsSpace (dropTrailWS (l.dropWhile pyIsSpace))
      = dropTrailWS (l.dropWhile pyIsSpace) := by
    cases ht : dropTrailWS (l.dropWhile pyIsSpace) with
    | nil => rfl
    | cons x xs =>
      obtain ⟨r, hr⟩ := dropTrail_decomp (l.dropWhile pyIsSpace)
      rw [ht, List.cons_append] at hr
      have hx : pyIsSpace x = false := dropWhile_head_false pyIsSpace l x (xs ++ r) hr
      rw [List.dropWhile_cons, if_neg (fun h => Bool.false_ne_true (hx ▸ h))]
  show dropTrailWS (List.dropWhile pyIsSpace (dropTrailWS (l.dropWhile pyIsSpace)))
      = dropTrailWS (l.dropWhile pyIsSpace)
  rw [h1, dropTrail_idem]

theorem noDouble_pyStrip (l : List Char) (h : noDouble l = true) :
    noDouble (pyStrip l) = true := by
  obtain ⟨u, hu⟩ := List.dropWhile_suffix (l := l) pyIsSpace
  have h2 : noDouble (l.dropWhile pyIsSpace) = true :=
    noDouble_append_right u _ (by rw [hu]; exact h)
  obtain ⟨r, hr⟩ := dropTrail_decomp (l.dropWhile pyIsSpace)
  refine noDouble_append_left (dropTrailWS (l.dropWhile pyIsSpace)) r ?_
  rw [← hr]
  exact h2

theorem nlToSp_ne_nl (ch : Char) : nlToSp ch ≠ '\n' := by
  rw [nlToSp]
  split_ifs with h
  · decide
  · exact h

theorem wsToSp_ne_nl (ch : Char) (h : ch ≠ '\n') : wsToSp ch ≠ '\n' := by
  rw [wsToSp]
  split_ifs
  · decide
  · exact h

theorem wsToSp_fix (ch : Char) : wsToSp (wsToSp ch) = wsToSp ch := by
  by_cases hw : pyIsSpace ch = true
  · have h1 : wsToSp ch = ' ' := by rw [wsToSp, if_pos hw]
    rw [h1]
    decide
  · have h1 : wsToSp ch = ch := by rw [wsToSp, if_neg hw]
    rw [h1, wsToSp, if_neg hw]

theorem nlToSp_preserves (t : Char) (ht : ¬t = ' ') : ∀ ch, nlToSp ch = t → ch = t := by
  intro ch h
  rw [nlToSp] at h
  split_ifs at h with hc
  · exact absurd h.symm ht
  · exact h

theorem wsToSp_preserves (t : Char) (ht : ¬t = ' ') : ∀ ch, wsToSp ch = t → ch = t := by
  intro ch h
  rw [wsToSp] at h
  split_ifs at h with hc
  · exact absurd h.symm ht
  · exact h

/-- Transport a no-span decomposition of the intermediate list `b` through
the three remaining pipeline stages (line-break map, whitespace map,
squeeze, strip). -/
theorem split_transport (o c : Char) (ho : ¬o = ' ') (hc : ¬c = ' ')
    (b s₁ s₂ : List Char) (hb : b = s₁ ++ s₂) (h1 : o ∉ s₁) (h2 : c ∉ s₂) :
    ∃ t₁ t₂, pyStrip (squeeze ((b.map nlToSp).map wsToSp)) = t₁ ++ t₂
      ∧ o ∉ t₁ ∧ c ∉ t₂ := by
  subst hb
  obtain ⟨w1, w2, hw, hw1, hw2⟩ :=
    split_of_map nlToSp (nlToSp_preserves o ho) (nlToSp_preserves c hc) h1 h2
  obtain ⟨z1, z2, hz, hz1, hz2⟩ :=
    split_of_map wsToSp (wsToSp_preserves o ho) (wsToSp_preserves c hc) hw1 hw2
  have hsq : (squeeze (((s₁ ++ s₂).map nlToSp).map wsToSp)).Sublist (z1 ++ z2) := by
    rw [hw, hz]
    exact squeeze_sublist (z1 ++ z2)
  obtain ⟨y1, y2, hy, hy1, hy2⟩ := split_of_sublist hsq hz1 hz2
  have hst : (pyStrip (squeeze (((s₁ ++ s₂).map nlToSp).map wsToSp))).Sublist (y1 ++ y2) := by
    rw [hy]
    exact pyStrip_sublist (y1 ++ y2)
  exact split_of_sublist hst hy1 hy2

/-- One pass of the cleaning pipeline on a break-free input is a fixed point
of the pipeline. -/
theorem cleanChars_idem (x : List Char) (hnl : '\n' ∉ x) :
    cleanChars (cleanChars x) = cleanChars x := by
  obtain ⟨u1, u2, hau, hu1, hu2⟩ :=
    removeSpans_split_exists '[' ']' (by decide) x hnl
  have hnl_a : '\n' ∉ removeSpans '[' ']' x :=
    fun h => hnl ((removeSpans_sublist '[' ']' x).subset h)
  have hb_sub : (removeSpans '(' ')' (removeSpans '[' ']' x)).Sublist (u1 ++ u2) := by
    rw [← hau]
    exact removeSpans_sublist '(' ')' (removeSpans '[' ']' x)
  obtain ⟨v1, v2, hbv, hv1, hv2⟩ := split_of_sublist hb_sub hu1 hu2
  obtain ⟨z1, z2, hsz0, hz1, hz2⟩ :=
    split_transport '[' ']' (by decide) (by decide) _ v1 v2 hbv hv1 hv2
  obtain ⟨p1, p2, hbp, hp1, hp2⟩ :=
    removeSpans_split_exists '(' ')' (by decide) (removeSpans '[' ']' x) hnl_a
  obtain ⟨g1, g2, hsg0, hg1, hg2⟩ :=
    split_transport '(' ')' (by decide) (by decide) _ p1 p2 hbp hp1 hp2
  have hsz : cleanChars x = z1 ++ z2 := hsz0
  have hsg : cleanChars x = g1 ++ g2 := hsg0
  have hnl_m1 : '\n' ∉ (removeSpans '(' ')' (removeSpans '[' ']' x)).map nlToSp := by
    intro h
    obtain ⟨ch, _, he⟩ := List.mem_map.mp h
    exact nlToSp_ne_nl ch he
  have hnl_m2 : '\n' ∉ ((removeSpans '(' ')' (removeSpans '[' ']' x)).map nlToSp).map wsToSp := by
    intro h
    obtain ⟨ch, hch, he⟩ := List.mem_map.mp h
    have hch_ne : ch ≠ '\n' := by
      intro hq
      rw [hq] at hch
      exact hnl_m1 hch
    exact wsToSp_ne_nl ch hch_ne he
  have hsub_s : ∀ ch, ch ∈ cleanChars x →
      ch ∈ ((removeSpans '(' ')' (removeSpans '[' ']' x)).map nlToSp).map wsToSp := by
    intro ch hch
    have hch2 : ch ∈ pyStrip (squeeze (((removeSpans '(' ')' (removeSpans '[' ']' x)).map
        nlToSp).map wsToSp)) := hch
    exact (squeeze_sublist _).subset ((pyStrip_sublist _).subset hch2)
  have hnl_s : '\n' ∉ cleanChars x := fun h => hnl_m2 (hsub_s '\n' h)
  have hws_s : ∀ ch ∈ cleanChars x, wsToSp ch = ch := by
    intro ch hch
    obtain ⟨c0, _, he⟩ := List.mem_map.mp (hsub_s ch hch)
    rw [← he]
    exact wsToSp_fix c0
  have hnd : noDouble (cleanChars x) = true :=
    noDouble_pyStrip _ (squeeze_noDouble
      (((removeSpans '(' ')' (removeSpans '[' ']' x)).map nlToSp).map wsToSp))
  have e1 : removeSpans '[' ']' (cleanChars x) = cleanChars x := by
    rw [hsz]
    exact removeSpans_id_split '[' ']' z1 z2 hz1 hz2
  have e2 : removeSpans '(' ')' (cleanChars x) = cleanChars x := by
    rw [hsg]
    exact removeSpans_id_split '(' ')' g1 g2 hg1 hg2
  have e3 : (cleanChars x).map nlToSp = cleanChars x :=
    map_id_of_mem nlToSp _ (fun a ha => by
      have hane : ¬a = '\n' := by
        intro he
        rw [he] at ha
        exact hnl_s ha
      rw [nlToSp, if_neg hane])
  have e4 : (cleanChars x).map wsToSp = cleanChars x :=
    map_id_of_mem wsToSp _ hws_s
  have e5 : squeeze (cleanChars x) = cleanChars x := squeeze_id _ hnd
  have e6 : pyStrip (cleanChars x) = cleanChars x :=
    pyStrip_idem (squeeze (((removeSpans '(' ')' (removeSpans '[' ']' x)).map
      nlToSp).map wsToSp))
  conv_lhs => rw [cleanChars]
  rw [e1, e2, e3, e4, e5]
  exact e6

theorem clean_text_idem (x s : String) (hnl : '\n' ∉ x.data)
    (h : clean_text x = some s) (hne : s ≠ "") : clean_text s = some s := by
  by_cases hx : x = ""
  · rw [clean_text, if_pos hx] at h
    cases h
  · rw [clean_text, if_neg hx] at h
    injection h with h2
    subst h2
    rw [clean_text, if_neg hne]
    show some (String.mk (cleanChars (cleanChars x.data)))
        = some (String.mk (cleanChars x.data))
    rw [cleanChars_idem x.data hnl]

/-- C2 (counterexample): `normalize(" ")` is the empty string, but applying
`normalize` to it hits the falsy-input guard and yields null — so
`normalize(normalize(" ")) ≠ normalize(" ")`. -/
theorem c2_counterexample :
    normalize (normalize (some " ")) ≠ normalize (some " ") := by decide

/-- C2 (amended): `normalize` is idempotent on every string that contains no
line break and whose normalization is non-empty; `normalize` still returns
null for null/empty input and strips bracketed citation spans, parenthetical
spans, line breaks, and whitespace runs. -/
theorem c2_amended (x s : String) (hnl : '\n' ∉ x.data)
    (h : normalize (some x) = some s) (hne : s ≠ "") :
    normalize (normalize (some x)) = normalize (some x) := by
  rw [h]
  show clean_text s = some s
  exact clean_text_idem x s hnl h hne

theorem c2_amended_witness :
    normalize (normalize (some "ab [cd] ef")) = normalize (some "ab [cd] ef") :=
  c2_amended "ab [cd] ef" "ab ef" (by decide) (by decide) (by decide)

end States
